import Mathlib

/-!
Verification development for the conformance-test harness core
(test authoring, expansion, selection and execution engine).

The development shallowly embeds the relevant parts of the program:
* `getExpectedStatus`, `RunCaseSpecific.runTest`, `RunCaseSpecific.run`,
  `TestBuilder.validate` and `TestGroup.test`/`checkName` are translated from
  `src/common/framework/test_group.ts`;
* `LogMessageWithStack` is translated from
  `out/common/internal/logging/log_message.js`;
* `checkElementsEqual` / `checkElementsPassPredicate` / `generatePrettyTable`
  are translated from the content-check utility module;
* collaborators whose sources are not part of the provided tree
  (`compareQueries`, the `TestCaseRecorder`, `mergeParams`,
  `validQueryPart`, the dedup keying of log messages) are modelled from the
  specification, as indicated by their doc comments.
-/

namespace CTS

/-! ### Query model (spec-modelled collaborator of test_group.ts) -/

/-- The four-valued ordering between two queries (spec section 3). -/
inductive Ordering where
  | Unordered
  | StrictSubset
  | StrictSuperset
  | Equal
deriving DecidableEq, Repr

/-- A scalar case-parameter value.  Numbers, strings and booleans suffice for
the comparison contract (keys map to scalar values, keys unique). -/
inductive PValue where
  | num (n : Int)
  | str (s : String)
  | boolean (b : Bool)
deriving DecidableEq, Repr

/-- A case-params record: a mapping from string key to a value, represented as
an association list with unique keys. -/
abbrev Params := List (String × PValue)

/-- Modelled from the spec: the query value types of query/query
(`TestQueryMultiFile`, `TestQueryMultiTest`, `TestQueryMultiCase`,
`TestQuerySingleCase`), absent from the provided sources.  Spec section 3:
four refinement levels, each optional, forming a strict hierarchy; a query
naming case params must also name a full test path; a query is either a
multi-level wildcard or a single case. -/
inductive TestQuery where
  | multiFile (suite : String) (filePathParts : List String)
  | multiTest (suite : String) (filePathParts : List String) (testPathParts : List String)
  | multiCase (suite : String) (filePathParts : List String) (testPathParts : List String)
      (params : Params)
  | singleCase (suite : String) (filePathParts : List String) (testPathParts : List String)
      (params : Params)
deriving DecidableEq, Repr

def TestQuery.suite : TestQuery → String
  | .multiFile s _ => s
  | .multiTest s _ _ => s
  | .multiCase s _ _ _ => s
  | .singleCase s _ _ _ => s

def TestQuery.filePathParts : TestQuery → List String
  | .multiFile _ f => f
  | .multiTest _ f _ => f
  | .multiCase _ f _ _ => f
  | .singleCase _ f _ _ => f

/-- Test path parts of a query; `[]` for a file-level query (unused there). -/
def TestQuery.testPathParts : TestQuery → List String
  | .multiFile _ _ => []
  | .multiTest _ _ t => t
  | .multiCase _ _ t _ => t
  | .singleCase _ _ t _ => t

/-- Case params of a query; `[]` for queries above the case level (unused there). -/
def TestQuery.params : TestQuery → Params
  | .multiFile _ _ => []
  | .multiTest _ _ _ => []
  | .multiCase _ _ _ p => p
  | .singleCase _ _ _ p => p

def TestQuery.isMultiFile : TestQuery → Bool
  | .multiFile _ _ => true
  | _ => false

def TestQuery.isMultiTest : TestQuery → Bool
  | .multiTest _ _ _ => true
  | _ => false

def TestQuery.isMultiCase : TestQuery → Bool
  | .multiCase _ _ _ _ => true
  | _ => false

/-- Modelled from the spec (section 4.1): path sequences compare as ordered
prefixes; the shorter is a superset only if it is an exact prefix of the
longer, else Unordered. -/
def comparePaths (a b : List String) : Ordering :=
  if a = b then .Equal
  else if a.isPrefixOf b then .StrictSuperset
  else if b.isPrefixOf a then .StrictSubset
  else .Unordered

/-- Every key/value pair of `a` also occurs in `b`. -/
def paramsSubsetOf (a b : Params) : Bool :=
  a.all (fun kv => b.any (fun kv2 => decide (kv = kv2)))

/-- Modelled from the spec (section 4.1): two case-params maps are
subset-equal over their public keys; containment both ways yields
Equal/StrictSubset/StrictSuperset/Unordered.  A query with fewer param
constraints matches more cases, hence is the superset. -/
def comparePublicParams (a b : Params) : Ordering :=
  let asub := paramsSubsetOf a b
  let bsub := paramsSubsetOf b a
  if asub && bsub then .Equal
  else if asub then .StrictSuperset
  else if bsub then .StrictSubset
  else .Unordered

/-- Modelled from the spec (section 3): a multi-level wildcard matches a whole
subtree.  At the first level where one of the two queries stops (is a
wildcard from that level down), the wildcard contains the other query
provided the levels so far are compatible in the same direction. -/
def compareOneLevel (ord : Ordering) (aBig bBig : Bool) : Ordering :=
  if aBig && bBig then ord
  else if aBig then
    match ord with
    | .Equal => .StrictSuperset
    | .StrictSuperset => .StrictSuperset
    | _ => .Unordered
  else
    match ord with
    | .Equal => .StrictSubset
    | .StrictSubset => .StrictSubset
    | _ => .Unordered

/-- Modelled from the spec: `compareQueries` of query/compare, whose source is
absent from the provided tree (only its caller `getExpectedStatus` is
present).  Spec sections 3 and 4.1: compare suite, then file parts
prefix-wise, then test parts prefix-wise, then case-params as set
containment; two queries are Unordered as soon as one level diverges. -/
def compareQueries (a b : TestQuery) : Ordering :=
  if a.suite ≠ b.suite then .Unordered
  else
    let fileOrd := comparePaths a.filePathParts b.filePathParts
    if fileOrd = .Unordered then .Unordered
    else if a.isMultiFile || b.isMultiFile then
      compareOneLevel fileOrd a.isMultiFile b.isMultiFile
    else if fileOrd ≠ .Equal then .Unordered
    else
      let testOrd := comparePaths a.testPathParts b.testPathParts
      if testOrd = .Unordered then .Unordered
      else if a.isMultiTest || b.isMultiTest then
        compareOneLevel testOrd a.isMultiTest b.isMultiTest
      else if testOrd ≠ .Equal then .Unordered
      else
        let paramsOrd := comparePublicParams a.params b.params
        if a.isMultiCase || b.isMultiCase then
          compareOneLevel paramsOrd a.isMultiCase b.isMultiCase
        else paramsOrd

/-! ### Expectation matching (test_group.ts, RunCaseSpecific.run) -/

/-- The `Expectation` union type of logging/result: pass, fail or skip. -/
inductive Expectation where
  | pass
  | fail
  | skip
deriving DecidableEq, Repr

/-- Modelled from the spec (section 6): a declared expectation record carries
`skip` or `fail` only ("expectations input — an ordered sequence of
`{query, expectation: 'skip'|'fail'}` records"). -/
inductive DeclExpectation where
  | fail
  | skip
deriving DecidableEq, Repr

/-- Modelled from the spec: the `TestQueryWithExpectation` record of
query/query, absent from the provided sources. -/
structure TestQueryWithExpectation where
  query : TestQuery
  expectation : DeclExpectation
deriving DecidableEq, Repr

/-- The loop body of `getExpectedStatus` (test_group.ts lines 355-377):
iterate the declarations in order; a declaration whose query compares as
Unordered or StrictSubset against the case query is skipped (`continue`);
a `skip` declaration returns immediately; a `fail` declaration sets the
`didSeeFail` flag. -/
def getExpectedStatusLoop (selfQueryWithSubParams : TestQuery) :
    List TestQueryWithExpectation → Bool → Expectation
  | [], didSeeFail => if didSeeFail then .fail else .pass
  | exp :: rest, didSeeFail =>
    let ordering := compareQueries exp.query selfQueryWithSubParams
    if ordering = .Unordered ∨ ordering = .StrictSubset then
      getExpectedStatusLoop selfQueryWithSubParams rest didSeeFail
    else
      match exp.expectation with
      | .skip => .skip
      | .fail => getExpectedStatusLoop selfQueryWithSubParams rest true

/-- `getExpectedStatus` from `RunCaseSpecific.run` (test_group.ts lines
355-377). -/
def getExpectedStatus (expectations : List TestQueryWithExpectation)
    (selfQueryWithSubParams : TestQuery) : Expectation :=
  getExpectedStatusLoop selfQueryWithSubParams expectations false

/-- The applicability test actually performed at test_group.ts line 359: a
declaration is accumulated unless its ordering against the case query is
Unordered or StrictSubset. -/
def isApplicable (expQuery caseQuery : TestQuery) : Bool :=
  match compareQueries expQuery caseQuery with
  | .Unordered => false
  | .StrictSubset => false
  | _ => true

/-- Reference reduction over the declarations that are accumulated: skip wins,
otherwise any fail yields fail, otherwise pass. -/
def statusOfDecls (ds : List DeclExpectation) : Expectation :=
  if ds.any (fun d => decide (d = .skip)) then .skip
  else if ds.any (fun d => decide (d = .fail)) then .fail
  else .pass

lemma isApplicable_iff (expQuery caseQuery : TestQuery) :
    isApplicable expQuery caseQuery = true ↔
      (compareQueries expQuery caseQuery = .Equal ∨
        compareQueries expQuery caseQuery = .StrictSuperset) := by
  unfold isApplicable
  cases compareQueries expQuery caseQuery <;> simp

lemma any_map_filter {α β : Type} (l : List α) (p : α → Bool) (f : α → β) (g : β → Bool) :
    ((l.filter p).map f).any g = l.any (fun a => p a && g (f a)) := by
  induction l with
  | nil => rfl
  | cons a l ih =>
    by_cases hp : p a = true
    · simp [List.filter_cons, hp, ih]
    · have hp' : p a = false := by revert hp; cases p a <;> simp
      simp [List.filter_cons, hp', ih]

lemma getExpectedStatusLoop_characterization (q : TestQuery)
    (exps : List TestQueryWithExpectation) (b : Bool) :
    getExpectedStatusLoop q exps b =
      (if exps.any (fun e => isApplicable e.query q && decide (e.expectation = .skip)) then
        .skip
      else if b || exps.any (fun e => isApplicable e.query q && decide (e.expectation = .fail)) then
        .fail
      else .pass) := by
  induction exps generalizing b with
  | nil => cases b <;> simp [getExpectedStatusLoop]
  | cons e rest ih =>
    by_cases happ : isApplicable e.query q = true
    · have hcont : ¬ (compareQueries e.query q = .Unordered ∨
          compareQueries e.query q = .StrictSubset) := by
        rcases (isApplicable_iff e.query q).mp happ with h | h <;> simp [h]
      cases hexp : e.expectation with
      | skip =>
        simp [getExpectedStatusLoop, hcont, hexp, happ]
      | fail =>
        rw [getExpectedStatusLoop]
        simp only [hcont, if_false]
        rw [hexp, ih true]
        simp [happ, hexp]
    · have hcont : compareQueries e.query q = .Unordered ∨
          compareQueries e.query q = .StrictSubset := by
        by_contra hc
        push_neg at hc
        exact happ ((isApplicable_iff e.query q).mpr (by
          cases h : compareQueries e.query q <;> simp_all [isApplicable]))
      rw [getExpectedStatusLoop]
      simp only [hcont, if_true]
      rw [ih b]
      have happ' : isApplicable e.query q = false := by
        cases h : isApplicable e.query q
        · rfl
        · exact absurd h happ
      simp [happ']

/-- C1 counterexample: a declaration whose query is a StrictSubset of the
case's query (hence not Unordered) carries expectation fail, yet the computed
expected status is pass: the declaration was not accumulated, contradicting
the claim that everything other than Unordered is applicable. -/
theorem c1_counterexample :
    compareQueries
        (TestQuery.singleCase "webgpu" ["f"] ["t"] [("x", .num 1), ("y", .num 2)])
        (TestQuery.singleCase "webgpu" ["f"] ["t"] [("x", .num 1)]) = .StrictSubset ∧
      compareQueries
        (TestQuery.singleCase "webgpu" ["f"] ["t"] [("x", .num 1), ("y", .num 2)])
        (TestQuery.singleCase "webgpu" ["f"] ["t"] [("x", .num 1)]) ≠ .Unordered ∧
      getExpectedStatus
        [{ query := TestQuery.singleCase "webgpu" ["f"] ["t"] [("x", .num 1), ("y", .num 2)],
           expectation := .fail }]
        (TestQuery.singleCase "webgpu" ["f"] ["t"] [("x", .num 1)]) = .pass := by
  refine ⟨by decide, by decide, by decide⟩

/-- C1 (amended): a declaration is applicable (accumulated into the
expected-status computation) exactly when compareQueries of its query against
the case's query is Equal or StrictSuperset; declarations whose ordering is
Unordered or StrictSubset are skipped.  The computed status equals the
skip/fail/pass reduction over exactly the declarations whose ordering is
Equal or StrictSuperset. -/
theorem c1_applicability (exps : List TestQueryWithExpectation) (q : TestQuery) :
    getExpectedStatus exps q =
      statusOfDecls
        ((exps.filter (fun e =>
            decide (compareQueries e.query q = .Equal ∨
              compareQueries e.query q = .StrictSuperset))).map
          (fun e => e.expectation)) := by
  rw [getExpectedStatus, getExpectedStatusLoop_characterization, statusOfDecls]
  have hfilter : ∀ e : TestQueryWithExpectation,
      (decide (compareQueries e.query q = .Equal ∨
        compareQueries e.query q = .StrictSuperset)) = isApplicable e.query q := by
    intro e
    cases h : isApplicable e.query q
    · simp only [decide_eq_false_iff_not]
      intro hc
      have := (isApplicable_iff e.query q).mpr hc
      simp [h] at this
    · simp only [decide_eq_true_eq]
      exact (isApplicable_iff e.query q).mp h
  simp only [hfilter, any_map_filter, Bool.false_or]

/-- C2: the computed expected status is skip iff some accumulated declaration
says skip (skip short-circuits and takes precedence over fail); otherwise it
is fail iff some accumulated declaration says fail; otherwise it is pass. -/
theorem c2_skip_precedence (exps : List TestQueryWithExpectation) (q : TestQuery) :
    (getExpectedStatus exps q = .skip ↔
        ∃ e ∈ exps, isApplicable e.query q = true ∧ e.expectation = .skip) ∧
      (getExpectedStatus exps q = .fail ↔
        (¬ ∃ e ∈ exps, isApplicable e.query q = true ∧ e.expectation = .skip) ∧
          ∃ e ∈ exps, isApplicable e.query q = true ∧ e.expectation = .fail) ∧
      (getExpectedStatus exps q = .pass ↔
        (¬ ∃ e ∈ exps, isApplicable e.query q = true ∧ e.expectation = .skip) ∧
          ¬ ∃ e ∈ exps, isApplicable e.query q = true ∧ e.expectation = .fail) := by
  rw [getExpectedStatus, getExpectedStatusLoop_characterization]
  have hskip : (exps.any (fun e => isApplicable e.query q && decide (e.expectation = .skip))
      = true) ↔ ∃ e ∈ exps, isApplicable e.query q = true ∧ e.expectation = .skip := by
    rw [List.any_eq_true]
    constructor
    · rintro ⟨e, he, h⟩
      rw [Bool.and_eq_true, decide_eq_true_eq] at h
      exact ⟨e, he, h⟩
    · rintro ⟨e, he, h1, h2⟩
      exact ⟨e, he, by rw [Bool.and_eq_true, decide_eq_true_eq]; exact ⟨h1, h2⟩⟩
  have hfail : (exps.any (fun e => isApplicable e.query q && decide (e.expectation = .fail))
      = true) ↔ ∃ e ∈ exps, isApplicable e.query q = true ∧ e.expectation = .fail := by
    rw [List.any_eq_true]
    constructor
    · rintro ⟨e, he, h⟩
      rw [Bool.and_eq_true, decide_eq_true_eq] at h
      exact ⟨e, he, h⟩
    · rintro ⟨e, he, h1, h2⟩
      exact ⟨e, he, by rw [Bool.and_eq_true, decide_eq_true_eq]; exact ⟨h1, h2⟩⟩
  rw [← hskip, ← hfail]
  cases hs : exps.any (fun e => isApplicable e.query q && decide (e.expectation = .skip)) <;>
    cases hf : exps.any (fun e => isApplicable e.query q && decide (e.expectation = .fail)) <;>
      simp

/-! ### Recorder, fixture lifecycle and subcase execution

`RunCaseSpecific.runTest` / `RunCaseSpecific.run` are translated from
test_group.ts lines 308-414.  The `TestCaseRecorder` collaborator
(logging/test_case_recorder) is absent from the provided sources and is
modelled from the spec (sections 4.4 and 7).  A thrown JavaScript exception is
either a `SkipTestCase` or any other error. -/

/-- A thrown exception: a `SkipTestCase` (advisory, not a failure) or any
other error carrying a message. -/
inductive JsErr where
  | skipCase (message : String)
  | other (message : String)
deriving DecidableEq, Repr

def JsErr.isSkip : JsErr → Bool
  | .skipCase _ => true
  | .other _ => false

def JsErr.msg : JsErr → String
  | .skipCase m => m
  | .other m => m

/-- Modelled from the spec (section 4.4): severity classification of recorded
log entries (info, skip, warning, failure). -/
inductive Severity where
  | info
  | skipS
  | warnS
  | failS
deriving DecidableEq, Repr

/-- The observed outcome of the running subcase so far. -/
inductive SubcaseStatus where
  | pass
  | skip
  | fail
deriving DecidableEq, Repr

structure RecEntry where
  sev : Severity
  message : String
deriving DecidableEq, Repr

/-- Modelled from the spec (sections 3 and 4.4): the mutable per-run-case
`TestCaseRecorder`: a log of messages and the current subcase state.  The
dedup of identical messages is modelled separately (`recordMessage`); the
status reduction only depends on which severities occur, which dedup
preserves. -/
structure TestCaseRecorder where
  entries : List RecEntry
  subcaseStatus : SubcaseStatus
deriving DecidableEq, Repr

def TestCaseRecorder.log (r : TestCaseRecorder) (sev : Severity) (message : String) :
    TestCaseRecorder :=
  { r with entries := r.entries ++ [⟨sev, message⟩] }

/-- Modelled from the spec (section 4.4): `start()` resets aggregate status. -/
def TestCaseRecorder.start : TestCaseRecorder := ⟨[], .pass⟩

/-- Modelled from the spec (section 4.4): `beginSubCase()` opens one subcase
attempt, which starts out clean. -/
def TestCaseRecorder.beginSubCase (r : TestCaseRecorder) : TestCaseRecorder :=
  { r with subcaseStatus := .pass }

/-- The entry appended when the recorder is handed a thrown exception: a
`SkipTestCase` is recorded as a skip, anything else as a failure. -/
def threwEntry : JsErr → RecEntry
  | .skipCase m => ⟨.skipS, m⟩
  | .other m => ⟨.failS, m⟩

/-- Modelled from the spec (sections 4.4 and 7): `threw(ex)` attributes an
exception to the current subcase; `SkipTestCase` is advisory (skip), anything
else marks the subcase failed. -/
def TestCaseRecorder.threw (r : TestCaseRecorder) (e : JsErr) : TestCaseRecorder :=
  match e with
  | .skipCase m =>
    { r.log .skipS m with
      subcaseStatus := match r.subcaseStatus with | .fail => .fail | _ => .skip }
  | .other m =>
    { r.log .failS m with subcaseStatus := .fail }

def TestCaseRecorder.warn (r : TestCaseRecorder) (message : String) : TestCaseRecorder :=
  r.log .warnS message

def TestCaseRecorder.info (r : TestCaseRecorder) (message : String) : TestCaseRecorder :=
  r.log .info message

def TestCaseRecorder.skipped (r : TestCaseRecorder) (message : String) : TestCaseRecorder :=
  r.log .skipS message

/-- Modelled from the spec (section 4.4): `endSubCase(expectedStatus)`
reconciles the subcase against the expected status; if the subcase was
expected to fail but passed cleanly it throws `UnexpectedPassError`,
modelled by the boolean component. -/
def TestCaseRecorder.endSubCase (r : TestCaseRecorder) (expectedStatus : Expectation) :
    TestCaseRecorder × Bool :=
  if expectedStatus = .fail ∧ r.subcaseStatus = .pass then (r, true) else (r, false)

/-- The overall status of one case. -/
inductive CaseStatus where
  | pass
  | skip
  | fail
deriving DecidableEq, Repr

/-- Modelled from the spec (section 4.4): `finish()` reduces the recorded
outcomes — any failure yields fail, otherwise a recorded skip yields skip,
else pass; warnings do not change pass/fail, they only attach advisory
text. -/
def finishStatus (r : TestCaseRecorder) : CaseStatus :=
  if r.entries.any (fun e => decide (e.sev = .failS)) then .fail
  else if r.entries.any (fun e => decide (e.sev = .skipS)) then .skip
  else .pass

/-- The behavior of one concrete fixture instance for one subcase: what, if
anything, each lifecycle step throws (`none` = the step completes). -/
structure FixtureBehavior where
  ctor : Option JsErr
  init : Option JsErr
  body : Option JsErr
  finalize : Option JsErr
deriving DecidableEq, Repr

/-- Which lifecycle steps ran and what single exception (if any) escapes the
inner `try`/`finally` of `runTest`. -/
structure LifecycleTrace where
  exception : Option JsErr
  ctorCalled : Bool
  initCalled : Bool
  bodyCalled : Bool
  finalizeCalls : Nat
deriving DecidableEq, Repr

/-- The lifecycle portion of `RunCaseSpecific.runTest` (test_group.ts lines
314-328): if the expected status is skip, `SkipTestCase` is thrown before the
fixture is constructed; otherwise the constructor runs; if it succeeds,
`init()` runs, the body runs only if `init()` completed, and `finalize()`
always runs exactly once.  By `try`/`finally` semantics an exception thrown
by `finalize()` replaces any earlier exception from init or the body. -/
def lifecycleOutcome (b : FixtureBehavior) (expectedStatus : Expectation) : LifecycleTrace :=
  if expectedStatus = .skip then
    ⟨some (.skipCase "Skipped by expectations"), false, false, false, 0⟩
  else
    match b.ctor with
    | some e => ⟨some e, true, false, false, 0⟩
    | none =>
      let excInitBody : Option JsErr :=
        match b.init with
        | some e => some e
        | none => b.body
      let exc : Option JsErr :=
        match b.finalize with
        | some f => some f
        | none => excInitBody
      ⟨exc, true, true, b.init.isNone, 1⟩

/-- The full observable result of `runTest` for one subcase. -/
structure SubcaseTrace where
  recorder : TestCaseRecorder
  lifecycle : LifecycleTrace
  thrown : Option JsErr
deriving DecidableEq, Repr

/-- `RunCaseSpecific.runTest` (test_group.ts lines 308-348): open the
subcase; run the lifecycle; a caught exception is rethrown when `throwSkip`
is set and it is a `SkipTestCase`, otherwise handed to `rec.threw`; finally
`rec.endSubCase(expectedStatus)` runs, and an `UnexpectedPassError` it throws
is recorded as a warning with message "Testcase passed unexpectedly.". -/
def runTest (rec : TestCaseRecorder) (b : FixtureBehavior) (throwSkip : Bool)
    (expectedStatus : Expectation) : SubcaseTrace :=
  let rec1 := rec.beginSubCase
  let lt := lifecycleOutcome b expectedStatus
  let step2 : TestCaseRecorder × Option JsErr :=
    match lt.exception with
    | none => (rec1, none)
    | some ex => if throwSkip && ex.isSkip then (rec1, some ex) else (rec1.threw ex, none)
  let rec3 :=
    match step2.1.endSubCase expectedStatus with
    | (r, true) => r.warn "Testcase passed unexpectedly."
    | (r, false) => r
  ⟨rec3, lt, step2.2⟩

/-- The `catch` block of the subcase loop (test_group.ts lines 394-404): a
rethrown `SkipTestCase` becomes an info message and bumps the skip counter;
any other escaped exception would be handed to `rec.threw` (unreachable,
since `runTest` catches everything else). -/
def loopStep (r : TestCaseRecorder) (skipCount : Nat) : Option JsErr → TestCaseRecorder × Nat
  | some (.skipCase m) => (r.info ("subcase skipped: " ++ m), skipCount + 1)
  | some e => (r.threw e, skipCount)
  | none => (r, skipCount)

/-- The loop over subcases in `RunCaseSpecific.run` (test_group.ts lines
380-406): each subcase is announced with an info message, then run with
`throwSkip` set; a rethrown `SkipTestCase` is handled by `loopStep`.  The
content of the announcement message (the stringified subcase params) is
abstracted to a constant. -/
def runSubcasesLoop :
    TestCaseRecorder → Nat → Nat → List (FixtureBehavior × Expectation) →
      TestCaseRecorder × Nat × Nat
  | rec, skipCount, totalCount, [] => (rec, skipCount, totalCount)
  | rec, skipCount, totalCount, (b, es) :: rest =>
    let rec1 := rec.info "subcase:"
    let tr := runTest rec1 b true es
    let next := loopStep tr.recorder skipCount tr.thrown
    runSubcasesLoop next.1 next.2 (totalCount + 1) rest

/-- `RunCaseSpecific.run` for a case with subcases (test_group.ts lines
379-409): start the recorder, run every subcase sequentially, and if every
subcase skipped record `SkipTestCase("all subcases were skipped")`.  Each
subcase's expected status (computed by `getExpectedStatus` on the merged
subcase query in the source) is an input here. -/
def runWithSubcases (subs : List (FixtureBehavior × Expectation)) : TestCaseRecorder :=
  let out := runSubcasesLoop TestCaseRecorder.start 0 0 subs
  if out.2.1 = out.2.2 then out.1.skipped "all subcases were skipped" else out.1

/-- A subcase skips: the lifecycle ends in a `SkipTestCase`, which `runTest`
rethrows when `throwSkip` is set. -/
def subcaseSkips (b : FixtureBehavior) (es : Expectation) : Bool :=
  match (lifecycleOutcome b es).exception with
  | some e => e.isSkip
  | none => false

/-- A subcase fails: the lifecycle ends in a non-skip exception, which
`runTest` hands to `rec.threw`. -/
def subcaseFails (b : FixtureBehavior) (es : Expectation) : Bool :=
  match (lifecycleOutcome b es).exception with
  | some e => !e.isSkip
  | none => false

/-- The observed status of the subcase as seen by the recorder at
`endSubCase` time. -/
def runTestSubStatus (b : FixtureBehavior) (ts : Bool) (es : Expectation) : SubcaseStatus :=
  match (lifecycleOutcome b es).exception with
  | none => .pass
  | some ex => if ts && ex.isSkip then .pass else (if ex.isSkip then .skip else .fail)

/-- The log entries `runTest` appends to the recorder it was given. -/
def runTestEntries (b : FixtureBehavior) (ts : Bool) (es : Expectation) : List RecEntry :=
  (match (lifecycleOutcome b es).exception with
    | none => []
    | some ex => if ts && ex.isSkip then [] else [threwEntry ex]) ++
    (if es = .fail ∧ runTestSubStatus b ts es = .pass then
      [⟨.warnS, "Testcase passed unexpectedly."⟩]
    else [])

lemma runTest_spec (rec : TestCaseRecorder) (b : FixtureBehavior) (ts : Bool)
    (es : Expectation) :
    (runTest rec b ts es).recorder.entries = rec.entries ++ runTestEntries b ts es ∧
      (runTest rec b ts es).thrown =
        (match (lifecycleOutcome b es).exception with
          | some ex => if ts && ex.isSkip then some ex else none
          | none => none) := by
  unfold runTest runTestEntries runTestSubStatus
  rcases hx : (lifecycleOutcome b es).exception with _ | ex
  · cases es <;>
      simp [hx, TestCaseRecorder.beginSubCase, TestCaseRecorder.endSubCase,
        TestCaseRecorder.warn, TestCaseRecorder.log]
  · cases ex <;> cases ts <;> cases es <;>
      simp [hx, TestCaseRecorder.beginSubCase, TestCaseRecorder.endSubCase,
        TestCaseRecorder.warn, TestCaseRecorder.log, TestCaseRecorder.threw, threwEntry,
        JsErr.isSkip]

lemma runTest_lifecycle (rec : TestCaseRecorder) (b : FixtureBehavior) (ts : Bool)
    (es : Expectation) :
    (runTest rec b ts es).lifecycle = lifecycleOutcome b es := rfl

/-- C3: whenever the fixture constructor succeeds, `finalize()` is invoked
exactly once, no matter whether init or the body completed or threw; and an
exception thrown by `finalize()` itself is not swallowed: a non-skip
finalize exception is attributed to the case result through the recorder,
and a skip one is rethrown (subcase mode) or recorded as a skip (single-case
mode). -/
theorem c3_finalize_guarantee (rec : TestCaseRecorder) (b : FixtureBehavior)
    (throwSkip : Bool) (es : Expectation) (hctor : b.ctor = none) (hes : es ≠ .skip) :
    (runTest rec b throwSkip es).lifecycle.finalizeCalls = 1 ∧
      (∀ f, b.finalize = some f → f.isSkip = false →
        (⟨.failS, f.msg⟩ : RecEntry) ∈ (runTest rec b throwSkip es).recorder.entries) ∧
      (∀ f, b.finalize = some f → f.isSkip = true → throwSkip = true →
        (runTest rec b throwSkip es).thrown = some f) ∧
      (∀ f, b.finalize = some f → f.isSkip = true → throwSkip = false →
        (⟨.skipS, f.msg⟩ : RecEntry) ∈ (runTest rec b throwSkip es).recorder.entries) := by
  have hlt : lifecycleOutcome b es =
      ⟨(match b.finalize with
        | some f => some f
        | none => (match b.init with | some e => some e | none => b.body)),
        true, true, b.init.isNone, 1⟩ := by
    unfold lifecycleOutcome
    rw [if_neg hes, hctor]
  have hspec := runTest_spec rec b throwSkip es
  refine ⟨?_, ?_, ?_, ?_⟩
  · rw [runTest_lifecycle, hlt]
  · intro f hf hns
    rw [hspec.1, runTestEntries, hlt, hf]
    cases f with
    | skipCase m => simp [JsErr.isSkip] at hns
    | other m =>
      simp only [JsErr.isSkip, Bool.and_false, threwEntry, JsErr.msg]
      refine List.mem_append.mpr (Or.inr (List.mem_append.mpr (Or.inl ?_)))
      simp
  · intro f hf hsk hts
    rw [hspec.2, hlt, hf]
    simp only [hts, hsk, Bool.and_self, if_true]
  · intro f hf hsk hts
    rw [hspec.1, runTestEntries, hlt, hf]
    cases f with
    | skipCase m =>
      simp only [hts, Bool.false_and, if_false, threwEntry, JsErr.msg]
      refine List.mem_append.mpr (Or.inr (List.mem_append.mpr (Or.inl ?_)))
      simp
    | other m => simp [JsErr.isSkip] at hsk

theorem c3_finalize_guarantee_witness :
    (runTest ⟨[], .pass⟩ ⟨none, some (.other "init failed"), none, some (.other "cleanup failed")⟩
        false .pass).lifecycle.finalizeCalls = 1 ∧
      (⟨.failS, "cleanup failed"⟩ : RecEntry) ∈
        (runTest ⟨[], .pass⟩
            ⟨none, some (.other "init failed"), none, some (.other "cleanup failed")⟩
            false .pass).recorder.entries := by
  have h := c3_finalize_guarantee (⟨[], .pass⟩ : TestCaseRecorder)
    ⟨none, some (.other "init failed"), none, some (.other "cleanup failed")⟩
    false .pass rfl (by decide)
  exact ⟨h.1, h.2.1 (.other "cleanup failed") rfl rfl⟩

/-- C4: a subcase whose expected status is fail but which completes without
error yields an `UnexpectedPassError` recorded as a warning with message
"Testcase passed unexpectedly." rather than as a failure, so a case with a
single such subcase finishes with overall status pass (with the warning
attached), not fail. -/
theorem c4_unexpected_pass (b : FixtureBehavior) (h1 : b.ctor = none) (h2 : b.init = none)
    (h3 : b.body = none) (h4 : b.finalize = none) :
    ((⟨.warnS, "Testcase passed unexpectedly."⟩ : RecEntry) ∈
        (runWithSubcases [(b, .fail)]).entries) ∧
      ((runWithSubcases [(b, .fail)]).entries.any (fun e => decide (e.sev = .failS)) = false) ∧
      finishStatus (runWithSubcases [(b, .fail)]) = .pass ∧
      finishStatus (runWithSubcases [(b, .fail)]) ≠ .fail := by
  cases b with
  | mk c i bd f =>
    obtain rfl : c = none := h1
    obtain rfl : i = none := h2
    obtain rfl : bd = none := h3
    obtain rfl : f = none := h4
    refine ⟨by decide, by decide, by decide, by decide⟩

theorem c4_unexpected_pass_witness :
    ((⟨.warnS, "Testcase passed unexpectedly."⟩ : RecEntry) ∈
        (runWithSubcases [(⟨none, none, none, none⟩, .fail)]).entries) ∧
      finishStatus (runWithSubcases [(⟨none, none, none, none⟩, .fail)]) = .pass := by
  have h := c4_unexpected_pass ⟨none, none, none, none⟩ rfl rfl rfl rfl
  exact ⟨h.1, h.2.2.1⟩

/-- C10: for a subcase whose computed expected status is skip, `runTest`
throws `SkipTestCase("Skipped by expectations")` before constructing the
fixture: the constructor, `init()`, the body and `finalize()` never run, and
the subcase is recorded as skipped (rethrown to the subcase loop when
`throwSkip` is set, recorded as a recorder skip otherwise). -/
theorem c10_skip_before_construction (rec : TestCaseRecorder) (b : FixtureBehavior)
    (throwSkip : Bool) :
    (runTest rec b throwSkip .skip).lifecycle.ctorCalled = false ∧
      (runTest rec b throwSkip .skip).lifecycle.initCalled = false ∧
      (runTest rec b throwSkip .skip).lifecycle.bodyCalled = false ∧
      (runTest rec b throwSkip .skip).lifecycle.finalizeCalls = 0 ∧
      (runTest rec b throwSkip .skip).thrown =
        (if throwSkip then some (.skipCase "Skipped by expectations") else none) ∧
      ((⟨.skipS, "Skipped by expectations"⟩ : RecEntry) ∈
        (runTest rec b false .skip).recorder.entries) ∧
      subcaseSkips b .skip = true ∧
      subcaseFails b .skip = false := by
  have hlt : lifecycleOutcome b .skip =
      ⟨some (.skipCase "Skipped by expectations"), false, false, false, 0⟩ := by
    unfold lifecycleOutcome
    rw [if_pos rfl]
  have hspec := runTest_spec rec b throwSkip .skip
  have hspecF := runTest_spec rec b false .skip
  refine ⟨?_, ?_, ?_, ?_, ?_, ?_, ?_, ?_⟩
  · rw [runTest_lifecycle, hlt]
  · rw [runTest_lifecycle, hlt]
  · rw [runTest_lifecycle, hlt]
  · rw [runTest_lifecycle, hlt]
  · rw [hspec.2, hlt]
    cases throwSkip <;> simp [JsErr.isSkip]
  · rw [hspecF.1, runTestEntries, hlt]
    simp only [JsErr.isSkip, Bool.false_and, if_false, threwEntry]
    refine List.mem_append.mpr (Or.inr (List.mem_append.mpr (Or.inl ?_)))
    simp
  · rw [subcaseSkips, hlt]
    simp [JsErr.isSkip]
  · rw [subcaseFails, hlt]
    simp [JsErr.isSkip]

theorem c10_skip_before_construction_witness :
    (runTest ⟨[], .pass⟩ ⟨none, none, some (.other "body"), none⟩ true .skip).lifecycle.ctorCalled
        = false ∧
      (runTest ⟨[], .pass⟩ ⟨none, none, some (.other "body"), none⟩ true .skip).lifecycle.finalizeCalls
        = 0 ∧
      (runTest ⟨[], .pass⟩ ⟨none, none, some (.other "body"), none⟩ true .skip).thrown =
        some (.skipCase "Skipped by expectations") := by
  have h := c10_skip_before_construction (⟨[], .pass⟩ : TestCaseRecorder)
    ⟨none, none, some (.other "body"), none⟩ true
  exact ⟨h.1, h.2.2.2.1, h.2.2.2.2.1⟩

lemma subcaseSkips_not_fails (b : FixtureBehavior) (es : Expectation)
    (h : subcaseSkips b es = true) : subcaseFails b es = false := by
  unfold subcaseSkips at h
  unfold subcaseFails
  rcases hx : (lifecycleOutcome b es).exception with _ | ex
  · rfl
  · cases ex with
    | skipCase m => rfl
    | other m =>
      rw [hx] at h
      simp [JsErr.isSkip] at h

lemma runTestEntries_fail_any (b : FixtureBehavior) (es : Expectation) :
    (runTestEntries b true es).any (fun e => decide (e.sev = .failS)) = subcaseFails b es := by
  rw [runTestEntries, subcaseFails, List.any_append]
  have hwarn : (if es = .fail ∧ runTestSubStatus b true es = .pass then
      ([⟨.warnS, "Testcase passed unexpectedly."⟩] : List RecEntry) else []).any
        (fun e => decide (e.sev = .failS)) = false := by
    split <;> simp
  rw [hwarn, Bool.or_false]
  rcases hx : (lifecycleOutcome b es).exception with _ | ex
  · rfl
  · cases ex with
    | skipCase m => simp [JsErr.isSkip, threwEntry]
    | other m => simp [JsErr.isSkip, threwEntry]

lemma runTestEntries_skip_any (b : FixtureBehavior) (es : Expectation) :
    (runTestEntries b true es).any (fun e => decide (e.sev = .skipS)) = false := by
  rw [runTestEntries, List.any_append]
  have hwarn : (if es = .fail ∧ runTestSubStatus b true es = .pass then
      ([⟨.warnS, "Testcase passed unexpectedly."⟩] : List RecEntry) else []).any
        (fun e => decide (e.sev = .skipS)) = false := by
    split <;> simp
  rw [hwarn, Bool.or_false]
  rcases hx : (lifecycleOutcome b es).exception with _ | ex
  · rfl
  · cases ex with
    | skipCase m => simp [JsErr.isSkip, threwEntry]
    | other m => simp [JsErr.isSkip, threwEntry]

lemma runTest_thrown_cases (rec : TestCaseRecorder) (b : FixtureBehavior) (es : Expectation) :
    (runTest rec b true es).thrown =
      (if subcaseSkips b es then (lifecycleOutcome b es).exception else none) := by
  rw [(runTest_spec rec b true es).2, subcaseSkips]
  rcases hx : (lifecycleOutcome b es).exception with _ | ex
  · simp
  · cases ex <;> simp [JsErr.isSkip]

lemma info_entries (r : TestCaseRecorder) (m : String) :
    (r.info m).entries = r.entries ++ [⟨.info, m⟩] := rfl

lemma runSubcasesLoop_spec (subs : List (FixtureBehavior × Expectation)) :
    ∀ (rec : TestCaseRecorder) (s t : Nat),
      ((runSubcasesLoop rec s t subs).1.entries.any (fun e => decide (e.sev = .failS)) =
        (rec.entries.any (fun e => decide (e.sev = .failS)) ||
          subs.any (fun x => subcaseFails x.1 x.2))) ∧
        ((runSubcasesLoop rec s t subs).1.entries.any (fun e => decide (e.sev = .skipS)) =
          rec.entries.any (fun e => decide (e.sev = .skipS))) ∧
        (runSubcasesLoop rec s t subs).2.1 = s + subs.countP (fun x => subcaseSkips x.1 x.2) ∧
        (runSubcasesLoop rec s t subs).2.2 = t + subs.length := by
  induction subs with
  | nil => intro rec s t; simp [runSubcasesLoop]
  | cons hd rest ih =>
    intro rec s t
    obtain ⟨b, es⟩ := hd
    rw [runSubcasesLoop]
    set rec1 := (rec.info "subcase:") with hrec1
    have hrec1e : rec1.entries = rec.entries ++ [⟨.info, "subcase:"⟩] := rfl
    have htr := (runTest_spec rec1 b true es).1
    have hth := runTest_thrown_cases rec1 b es
    rcases hsk : subcaseSkips b es with _ | _
    · rw [hsk] at hth
      simp only [Bool.false_eq_true, if_false] at hth
      rw [hth]
      simp only [loopStep]
      have hx := ih (runTest rec1 b true es).recorder s (t + 1)
      refine ⟨?_, ?_, ?_, ?_⟩
      · rw [hx.1, htr, hrec1e]
        simp [List.any_append, List.any_cons, runTestEntries_fail_any, Bool.or_assoc]
      · rw [hx.2.1, htr, hrec1e]
        simp [List.any_append, runTestEntries_skip_any]
      · rw [hx.2.2.1, List.countP_cons]
        simp only [hsk, if_false, Bool.false_eq_true]
        omega
      · rw [hx.2.2.2, List.length_cons]
        omega
    · rw [hsk] at hth
      have hskdef : subcaseSkips b es = true := hsk
      rw [subcaseSkips] at hskdef
      rcases hx2 : (lifecycleOutcome b es).exception with _ | ex
      · rw [hx2] at hskdef; cases hskdef
      · rw [hx2] at hskdef hth
        simp only [if_pos rfl] at hth
        cases ex with
        | other m => simp [JsErr.isSkip] at hskdef
        | skipCase m =>
          simp only [if_true] at hth
          rw [hth]
          simp only [loopStep]
          have hnf := subcaseSkips_not_fails b es hsk
          have hx := ih ((runTest rec1 b true es).recorder.info ("subcase skipped: " ++ m))
            (s + 1) (t + 1)
          refine ⟨?_, ?_, ?_, ?_⟩
          · rw [hx.1, info_entries, htr, hrec1e]
            simp [List.any_append, List.any_cons, runTestEntries_fail_any, hnf,
              Bool.or_assoc]
          · rw [hx.2.1, info_entries, htr, hrec1e]
            simp [List.any_append, runTestEntries_skip_any]
          · rw [hx.2.2.1, List.countP_cons]
            simp [hsk]
            omega
          · rw [hx.2.2.2, List.length_cons]
            omega

/-- C5: for a case with subcases, the final reduction yields overall status
skip iff every subcase skipped (the all-skipped case is recorded via
`SkipTestCase("all subcases were skipped")`); it is fail iff some subcase
failed; otherwise it is pass — warnings do not change pass/fail. -/
theorem c5_finish_reduction (subs : List (FixtureBehavior × Expectation)) :
    (finishStatus (runWithSubcases subs) = .skip ↔
        ∀ x ∈ subs, subcaseSkips x.1 x.2 = true) ∧
      (finishStatus (runWithSubcases subs) = .fail ↔
        ∃ x ∈ subs, subcaseFails x.1 x.2 = true) ∧
      (finishStatus (runWithSubcases subs) = .pass ↔
        ((¬ ∀ x ∈ subs, subcaseSkips x.1 x.2 = true) ∧
          ¬ ∃ x ∈ subs, subcaseFails x.1 x.2 = true)) := by
  have hloop := runSubcasesLoop_spec subs TestCaseRecorder.start 0 0
  have hstart : (TestCaseRecorder.start).entries = [] := rfl
  rw [hstart] at hloop
  simp only [List.any_nil, Bool.false_or, Nat.zero_add] at hloop
  rw [runWithSubcases]
  by_cases hall : (runSubcasesLoop TestCaseRecorder.start 0 0 subs).2.1 =
      (runSubcasesLoop TestCaseRecorder.start 0 0 subs).2.2
  · have hallskip : ∀ x ∈ subs, subcaseSkips x.1 x.2 = true := by
      rw [hloop.2.2.1, hloop.2.2.2] at hall
      intro x hx
      have := List.countP_eq_length (l := subs) (p := fun x => subcaseSkips x.1 x.2)
      exact this.mp hall x hx
    have hnofail : subs.any (fun x => subcaseFails x.1 x.2) = false := by
      cases hany : subs.any (fun x => subcaseFails x.1 x.2)
      · rfl
      · obtain ⟨x, hx, hf⟩ := List.any_eq_true.mp hany
        rw [subcaseSkips_not_fails x.1 x.2 (hallskip x hx)] at hf
        cases hf
    rw [if_pos hall]
    have hfin : finishStatus
        ((runSubcasesLoop TestCaseRecorder.start 0 0 subs).1.skipped
          "all subcases were skipped") = .skip := by
      rw [finishStatus]
      have he : ((runSubcasesLoop TestCaseRecorder.start 0 0 subs).1.skipped
          "all subcases were skipped").entries =
          (runSubcasesLoop TestCaseRecorder.start 0 0 subs).1.entries ++
            [⟨.skipS, "all subcases were skipped"⟩] := rfl
      rw [he, List.any_append, List.any_append, hloop.1, hnofail]
      simp
    rw [hfin]
    refine ⟨⟨fun _ => hallskip, fun _ => rfl⟩, ?_, ?_⟩
    · constructor
      · intro h; cases h
      · rintro ⟨x, hx, hf⟩
        rw [subcaseSkips_not_fails x.1 x.2 (hallskip x hx)] at hf
        cases hf
    · constructor
      · intro h; cases h
      · rintro ⟨hna, _⟩
        exact absurd hallskip hna
  · have hnall : ¬ ∀ x ∈ subs, subcaseSkips x.1 x.2 = true := by
      intro hallskip
      apply hall
      rw [hloop.2.2.1, hloop.2.2.2]
      exact (List.countP_eq_length (l := subs) (p := fun x => subcaseSkips x.1 x.2)).mpr
        hallskip
    rw [if_neg hall]
    rw [finishStatus, hloop.1, hloop.2.1]
    have hfalse : ¬ ((false : Bool) = true) := by simp
    cases hany : subs.any (fun x => subcaseFails x.1 x.2)
    · rw [if_neg hfalse, if_neg hfalse]
      refine ⟨?_, ?_, ?_⟩
      · constructor
        · intro h; cases h
        · intro h; exact absurd h hnall
      · constructor
        · intro h; cases h
        · rintro ⟨x, hx, hf⟩
          have : subs.any (fun x => subcaseFails x.1 x.2) = true :=
            List.any_eq_true.mpr ⟨x, hx, hf⟩
          rw [hany] at this; cases this
      · refine ⟨fun _ => ⟨hnall, ?_⟩, fun _ => rfl⟩
        rintro ⟨x, hx, hf⟩
        have : subs.any (fun x => subcaseFails x.1 x.2) = true :=
          List.any_eq_true.mpr ⟨x, hx, hf⟩
        rw [hany] at this; cases this
    · rw [if_pos rfl]
      refine ⟨?_, ?_, ?_⟩
      · constructor
        · intro h; cases h
        · intro h; exact absurd h hnall
      · refine ⟨fun _ => List.any_eq_true.mp hany, fun _ => rfl⟩
      · constructor
        · intro h; cases h
        · rintro ⟨_, hne⟩
          exact absurd (List.any_eq_true.mp hany) hne

theorem c5_finish_reduction_witness :
    (finishStatus (runWithSubcases
        [(⟨none, some (.skipCase "s1"), none, none⟩, .pass),
         (⟨none, none, some (.skipCase "s2"), none⟩, .pass),
         (⟨none, none, none, none⟩, .skip)]) = .skip ↔
      ∀ x ∈ [((⟨none, some (.skipCase "s1"), none, none⟩ : FixtureBehavior), Expectation.pass),
         (⟨none, none, some (.skipCase "s2"), none⟩, .pass),
         (⟨none, none, none, none⟩, .skip)], subcaseSkips x.1 x.2 = true) ∧
      (∀ x ∈ [((⟨none, some (.skipCase "s1"), none, none⟩ : FixtureBehavior), Expectation.pass),
         (⟨none, none, some (.skipCase "s2"), none⟩, .pass),
         (⟨none, none, none, none⟩, .skip)], subcaseSkips x.1 x.2 = true) ∧
      finishStatus (runWithSubcases
        [(⟨none, some (.skipCase "s1"), none, none⟩, .pass),
         (⟨none, none, some (.skipCase "s2"), none⟩, .pass),
         (⟨none, none, none, none⟩, .skip)]) = .skip ∧
      finishStatus (runWithSubcases
        [(⟨none, none, none, none⟩, .pass),
         (⟨none, none, some (.other "boom"), none⟩, .pass),
         (⟨none, none, none, none⟩, .skip)]) = .fail := by
  have h1 := c5_finish_reduction
    [(⟨none, some (.skipCase "s1"), none, none⟩, .pass),
     (⟨none, none, some (.skipCase "s2"), none⟩, .pass),
     (⟨none, none, none, none⟩, .skip)]
  have h2 := c5_finish_reduction
    [(⟨none, none, none, none⟩, .pass),
     (⟨none, none, some (.other "boom"), none⟩, .pass),
     (⟨none, none, none, none⟩, .skip)]
  refine ⟨h1.1, by decide, h1.1.mpr (by decide), h2.2.1.mpr ?_⟩
  refine ⟨(⟨none, none, some (.other "boom"), none⟩, .pass), by decide, by decide⟩

/-! ### Log message with stack (out/common/internal/logging/log_message.js) -/

/-- `LogMessageWithStack` (log_message.js lines 3-36): wraps a thrown failure
with its name, message, captured stack, an optional flag suppressing stack
printing, and a "times seen" counter. -/
structure LogMessageWithStack where
  name : String
  message : String
  stack : Option String
  stackHiddenMessage : Option String
  timesSeen : Nat
deriving DecidableEq, Repr

/-- The constructor of `LogMessageWithStack` (log_message.js lines 7-12):
copies the exception's message and stack and starts `timesSeen` at 1. -/
def mkLogMessageWithStack (name : String) (exMessage : String) (exStack : Option String) :
    LogMessageWithStack :=
  { name := name, message := exMessage, stack := exStack, stackHiddenMessage := none,
    timesSeen := 1 }

/-- `incrementTimesSeen` (log_message.js lines 20-22). -/
def LogMessageWithStack.incrementTimesSeen (l : LogMessageWithStack) : LogMessageWithStack :=
  { l with timesSeen := l.timesSeen + 1 }

/-- JavaScript truthiness of an optional string: defined and non-empty. -/
def optTruthy : Option String → Bool
  | some s => decide (s ≠ "")
  | none => false

/-- The duplication note appended by `toJSON` when `timesSeen > 1`
(log_message.js lines 32-34). -/
def dupNote (timesSeen : Nat) : String :=
  "\n  (duplicated " ++ toString timesSeen ++
    " times (possibly non-consecutively); use ?debug=1 to show all)"

/-- The part of `toJSON` before the duplication note (log_message.js lines
25-31): name, optional message, then either the extracted stack trace (when
the stack is shown and present) or the stack-hidden note.  The external
`extractImportantStackTrace` helper is a parameter. -/
def toJSONStackPart (extract : LogMessageWithStack → String) (l : LogMessageWithStack) :
    String :=
  let m := l.name
  let m := if l.message ≠ "" then m ++ ": " ++ l.message else m
  if l.stackHiddenMessage.isNone && optTruthy l.stack then m ++ "\n" ++ extract l
  else if optTruthy l.stackHiddenMessage then
    m ++ "\n  (" ++ l.stackHiddenMessage.getD "" ++ ")"
  else m

/-- `toJSON` (log_message.js lines 24-35). -/
def LogMessageWithStack.toJSON (extract : LogMessageWithStack → String)
    (l : LogMessageWithStack) : String :=
  let m := l.name
  let m := if l.message ≠ "" then m ++ ": " ++ l.message else m
  let m :=
    if l.stackHiddenMessage.isNone && optTruthy l.stack then m ++ "\n" ++ extract l
    else if optTruthy l.stackHiddenMessage then
      m ++ "\n  (" ++ l.stackHiddenMessage.getD "" ++ ")"
    else m
  if l.timesSeen > 1 then m ++ dupNote l.timesSeen else m

/-- Modelled from the spec (sections 4.4 and 7): the dedup signature of a
failure — error name, normalized message, normalized stack (normalization is
not modelled). -/
def sameSig (a b : LogMessageWithStack) : Bool :=
  decide (a.name = b.name) && decide (a.message = b.message) && decide (a.stack = b.stack)

/-- Modelled from the spec (section 4.4): logging a message whose dedup
signature matches one already recorded increments that message's times-seen
counter instead of appending a duplicate. -/
def recordMessage : List LogMessageWithStack → LogMessageWithStack → List LogMessageWithStack
  | [], m => [m]
  | l :: ls, m =>
    if sameSig l m then l.incrementTimesSeen :: ls else l :: recordMessage ls m

/-- Log the same message `n` times into an initially empty store. -/
def logRepeated (n : Nat) (m : LogMessageWithStack) : List LogMessageWithStack :=
  match n with
  | 0 => []
  | k + 1 => recordMessage (logRepeated k m) m

lemma sameSig_timesSeen (m : LogMessageWithStack) (k : Nat) :
    sameSig { m with timesSeen := k } m = true := by
  simp [sameSig]

lemma logRepeated_succ_eq (m : LogMessageWithStack) :
    ∀ k : Nat, logRepeated (k + 1) m = [{ m with timesSeen := m.timesSeen + k }] := by
  intro k
  induction k with
  | zero =>
    show recordMessage [] m = _
    rw [recordMessage]
    cases m
    rfl
  | succ k ih =>
    show recordMessage (logRepeated (k + 1) m) m = _
    rw [ih, recordMessage, if_pos (sameSig_timesSeen m (m.timesSeen + k))]
    rfl

/-- C6: the times-seen counter starts at 1; logging the same failure
signature n times (n at least 1) yields exactly one stored message with
`timesSeen = n` rather than n messages; and the rendering mentions the
duplication count exactly when `timesSeen > 1`. -/
theorem c6_times_seen (m : LogMessageWithStack) (hm : m.timesSeen = 1) (n : Nat)
    (hn : 1 ≤ n) :
    logRepeated n m = [{ m with timesSeen := n }] ∧
      (∀ name exMessage exStack,
        (mkLogMessageWithStack name exMessage exStack).timesSeen = 1) ∧
      (∀ extract l, LogMessageWithStack.toJSON extract l =
        toJSONStackPart extract l ++ (if l.timesSeen > 1 then dupNote l.timesSeen else "")) := by
  refine ⟨?_, fun _ _ _ => rfl, ?_⟩
  · obtain ⟨k, rfl⟩ : ∃ k, n = k + 1 := ⟨n - 1, by omega⟩
    rw [logRepeated_succ_eq m k, hm]
    rw [Nat.add_comm]
  · intro extract l
    rw [LogMessageWithStack.toJSON, toJSONStackPart]
    by_cases h : l.timesSeen > 1
    · rw [if_pos h, if_pos h]
    · rw [if_neg h, if_neg h]
      exact (String.append_empty _).symm

theorem c6_times_seen_witness :
    logRepeated 100 (mkLogMessageWithStack "Error" "boom" (some "stack")) =
        [{ mkLogMessageWithStack "Error" "boom" (some "stack") with timesSeen := 100 }] ∧
      (mkLogMessageWithStack "Error" "boom" (some "stack")).timesSeen = 1 := by
  have h := c6_times_seen (mkLogMessageWithStack "Error" "boom" (some "stack")) rfl 100
    (by decide)
  exact ⟨h.1, h.2.1 "Error" "boom" (some "stack")⟩

/-! ### TestBuilder.validate (test_group.ts lines 198-228) -/

/-- Modelled from the spec (section 4.2): merging a case params record with a
subcase params record fails if they share a key with different values;
otherwise the merged record has the case entries followed by the new subcase
entries (the JavaScript spread `{...caseParams, ...subcaseParams}`). -/
def mergeParams (a b : Params) : Option Params :=
  if a.any (fun p => b.any (fun q => decide (p.1 = q.1) && decide (p.2 ≠ q.2))) then none
  else some (a ++ b.filter (fun q => !(a.any (fun p => decide (p.1 = q.1)))))

/-- The (case params, subcase params) pairs `validate` iterates: for each
case entry, its subcases or, when it has none, the single empty record
(`subcases ?? [{}]`, test_group.ts lines 213-214). -/
def flattenedTestcases (testCases : List (Params × Option (List Params))) :
    List (Params × Params) :=
  testCases.flatMap (fun cs => (cs.2.getD [[]]).map (fun sub => (cs.1, sub)))

/-- The merged params of every expanded (case × subcase) entry; `none` when
some merge fails. -/
def mergedTestcases (testCases : List (Params × Option (List Params))) :
    Option (List Params) :=
  (flattenedTestcases testCases).mapM (fun p => mergeParams p.1 p.2)

/-- The loop of `TestBuilder.validate` (test_group.ts lines 212-227): merge
each entry's params, stringify them uniquely (the external
`stringifyPublicParamsUniquely` is the parameter `uniq`), and assert the
string was not seen before. -/
def validateLoop (uniq : Params → String) :
    List String → List (Params × Params) → Except String Unit
  | _, [] => .ok ()
  | seen, (caseParams, subcaseParams) :: rest =>
    match mergeParams caseParams subcaseParams with
    | none => .error "merge failed"
    | some params =>
      let testcaseStringUnique := uniq params
      if seen.contains testcaseStringUnique then
        .error "Duplicate public test case params for test"
      else validateLoop uniq (testcaseStringUnique :: seen) rest

/-- `TestBuilder.validate` restricted to its duplicate-detection loop
(test_group.ts lines 208-227); the `.fn()`-presence assertion (lines
200-206) is taken as a hypothesis by the theorems.  The builder is not
modified: the function only reads `testCases`. -/
def validate (uniq : Params → String) (testCases : List (Params × Option (List Params))) :
    Except String Unit :=
  validateLoop uniq [] (flattenedTestcases testCases)

lemma validateLoop_spec (uniq : Params → String) :
    ∀ (entries : List (Params × Params)) (ms : List Params) (seen : List String),
      entries.mapM (fun p => mergeParams p.1 p.2) = some ms →
      (validateLoop uniq seen entries = .ok () ↔
        (List.Pairwise (fun p q => uniq p ≠ uniq q) ms ∧
          ∀ p ∈ ms, uniq p ∉ seen)) := by
  intro entries
  induction entries with
  | nil =>
    intro ms seen hms
    rw [List.mapM_nil] at hms
    obtain rfl : ([] : List Params) = ms := by
      simpa using hms
    simp [validateLoop]
  | cons e rest ih =>
    intro ms seen hms
    obtain ⟨c, s⟩ := e
    rw [List.mapM_cons] at hms
    rcases hm : mergeParams c s with _ | m
    · rw [hm] at hms
      simp at hms
    · rw [hm] at hms
      rcases hrest : rest.mapM (fun p => mergeParams p.1 p.2) with _ | ms'
      · rw [hrest] at hms
        simp at hms
      · rw [hrest] at hms
        obtain rfl : m :: ms' = ms := by
          simpa using hms
        have hstep : validateLoop uniq seen ((c, s) :: rest) =
            (if seen.contains (uniq m) = true then
              Except.error "Duplicate public test case params for test"
            else validateLoop uniq (uniq m :: seen) rest) := by
          rw [validateLoop, hm]
        rw [hstep]
        by_cases hc : uniq m ∈ seen
        · rw [if_pos (by simpa using hc)]
          constructor
          · intro h; cases h
          · rintro ⟨_, hseen⟩
            exact absurd hc (hseen m (List.mem_cons_self _ _))
        · rw [if_neg (by simpa using hc)]
          rw [ih ms' (uniq m :: seen) hrest]
          constructor
          · rintro ⟨hpw, hseen⟩
            refine ⟨List.pairwise_cons.mpr ⟨?_, hpw⟩, ?_⟩
            · intro q hq hequ
              exact (hseen q hq) (by rw [← hequ]; exact List.mem_cons_self _ _)
            · intro p hp
              rcases List.mem_cons.mp hp with rfl | hp'
              · exact hc
              · intro hmem
                exact (hseen p hp') (List.mem_cons_of_mem _ hmem)
          · rintro ⟨hpw, hseen⟩
            obtain ⟨hm2, hpw'⟩ := List.pairwise_cons.mp hpw
            refine ⟨hpw', ?_⟩
            intro p hp hmem
            rcases List.mem_cons.mp hmem with hequ | hmem'
            · exact hm2 p hp hequ.symm
            · exact (hseen p (List.mem_cons_of_mem _ hp)) hmem'

/-- C7: given that every (case × subcase) merge succeeds (and `.fn()` was
attached), `validate` succeeds exactly when no two expanded entries have
equal unique public-parameter stringification; it fails (assertion) exactly
when two such entries collide.  `validate` reads the expanded iterable and
does not modify the builder. -/
theorem c7_validate_duplicates (uniq : Params → String)
    (testCases : List (Params × Option (List Params))) (ms : List Params)
    (hms : mergedTestcases testCases = some ms) :
    (validate uniq testCases = .ok () ↔
        List.Pairwise (fun p q => uniq p ≠ uniq q) ms) ∧
      (validate uniq testCases ≠ .ok () ↔
        ¬ List.Pairwise (fun p q => uniq p ≠ uniq q) ms) := by
  have h := validateLoop_spec uniq (flattenedTestcases testCases) ms [] hms
  have h1 : validate uniq testCases = .ok () ↔
      List.Pairwise (fun p q => uniq p ≠ uniq q) ms := by
    rw [validate, h]
    constructor
    · rintro ⟨hpw, _⟩; exact hpw
    · intro hpw
      exact ⟨hpw, fun p _ => List.not_mem_nil _⟩
  exact ⟨h1, not_congr h1⟩

theorem c7_validate_duplicates_witness :
    (validate (fun p => String.intercalate "," (p.map (fun kv => kv.1)))
        [([("a", PValue.num 1)], none), ([("b", PValue.num 2)], none)] = .ok ()) ∧
      (validate (fun p => String.intercalate "," (p.map (fun kv => kv.1)))
        [([("a", PValue.num 1)], none), ([("a", PValue.num 2)], some [[]])] ≠ .ok ()) := by
  have h1 := c7_validate_duplicates
    (fun p => String.intercalate "," (p.map (fun kv => kv.1)))
    [([("a", PValue.num 1)], none), ([("b", PValue.num 2)], none)]
    [[("a", PValue.num 1)], [("b", PValue.num 2)]] rfl
  have h2 := c7_validate_duplicates
    (fun p => String.intercalate "," (p.map (fun kv => kv.1)))
    [([("a", PValue.num 1)], none), ([("a", PValue.num 2)], some [[]])]
    [[("a", PValue.num 1)], [("a", PValue.num 2)]] rfl
  constructor
  · exact h1.1.mpr (by decide)
  · exact h2.2.mpr (by decide)

/-! ### TestGroup.test and checkName (test_group.ts lines 82-108) -/

/-- Modelled from the spec (section 6): the separator between test path
segments in a query string — a distinct single-character separator. -/
def kPathSeparator : Char := Char.ofNat 44

/-- JavaScript `name.split(sep)` for a single-character separator, on the
character list: split at every occurrence of the separator. -/
def splitPartsAux (sep : Char) : List Char → List Char → List String
  | [], acc => [String.mk acc.reverse]
  | c :: cs, acc =>
    if c = sep then String.mk acc.reverse :: splitPartsAux sep cs []
    else splitPartsAux sep cs (c :: acc)

/-- JavaScript `name.split(sep)` for a single-character separator. -/
def splitParts (sep : Char) (s : String) : List String :=
  splitPartsAux sep s.data []

/-- Modelled from the spec (section 3): the restricted character class a test
name path segment must match (query/validQueryPart is absent from the
provided sources): one or more alphanumeric or underscore characters. -/
def validQueryPart (s : String) : Bool :=
  decide (s.length > 0) && s.data.all (fun c => c.isAlphanum || decide (c = Char.ofNat 95))

/-- The per-group registration state of a `TestGroup`: the set of names seen
so far and the ordered test builders (represented by their test paths). -/
structure TestGroupState where
  seen : List String
  tests : List (List String)
deriving DecidableEq, Repr

/-- `TestGroup.checkName` (test_group.ts lines 82-92): asserts the name is
decodeURIComponent-idempotent (the external decoder is the parameter `dec`)
and not a duplicate, then records it as seen.  `none` models an assertion
failure. -/
def checkName (dec : String → String) (g : TestGroupState) (name : String) :
    Option TestGroupState :=
  if name ≠ dec name then none
  else if g.seen.contains name then none
  else some { g with seen := name :: g.seen }

/-- `TestGroup.test` (test_group.ts lines 95-108): checks the name, splits it
at `kPathSeparator`, asserts every part matches `validQueryPart`, and appends
the new test. -/
def testGroupTest (dec : String → String) (g : TestGroupState) (name : String) :
    Option TestGroupState :=
  match checkName dec g name with
  | none => none
  | some g1 =>
    let parts := splitParts kPathSeparator name
    if parts.all validQueryPart then
      some { g1 with tests := g1.tests ++ [parts] }
    else none

/-- C8: `test(name)` fails exactly when the name is not idempotent under the
percent-decoder, or duplicates a previously registered name, or some path
segment fails the valid-query-part character class; otherwise the test is
appended and the name is recorded as seen. -/
theorem c8_test_name_checks (dec : String → String) (g : TestGroupState) (name : String) :
    ((testGroupTest dec g name = none) ↔
        (¬ name = dec name ∨ g.seen.contains name = true ∨
          ∃ p ∈ splitParts kPathSeparator name, validQueryPart p = false)) ∧
      (∀ g2, testGroupTest dec g name = some g2 →
        g2.seen = name :: g.seen ∧
          g2.tests = g.tests ++ [splitParts kPathSeparator name]) := by
  by_cases h1 : name = dec name
  · by_cases h2 : g.seen.contains name = true
    · have hck : checkName dec g name = none := by
        rw [checkName, if_neg (not_not_intro h1), if_pos h2]
      have hnone : testGroupTest dec g name = none := by
        rw [testGroupTest, hck]
      refine ⟨?_, ?_⟩
      · rw [hnone]
        simp only [true_iff]
        exact Or.inr (Or.inl h2)
      · intro g2 hg2
        rw [hnone] at hg2
        cases hg2
    · have h2' : g.seen.contains name = false := by
        cases h : g.seen.contains name
        · rfl
        · exact absurd h h2
      have hck : checkName dec g name = some { g with seen := name :: g.seen } := by
        rw [checkName, if_neg (not_not_intro h1),
          if_neg (by rw [h2']; exact Bool.false_ne_true)]
      have hred : testGroupTest dec g name =
          (if (splitParts kPathSeparator name).all validQueryPart = true then
            some ({ seen := name :: g.seen,
                    tests := g.tests ++ [splitParts kPathSeparator name] } : TestGroupState)
          else none) := by
        rw [testGroupTest, hck]
      by_cases h3 : (splitParts kPathSeparator name).all validQueryPart = true
      · rw [hred, if_pos h3]
        refine ⟨?_, ?_⟩
        · simp only [reduceCtorEq, false_iff]
          rintro (hA | hB | ⟨p, hp, hbad⟩)
          · exact hA h1
          · rw [h2'] at hB; cases hB
          · have := List.all_eq_true.mp h3 p hp
            rw [hbad] at this; cases this
        · intro g2 hg2
          obtain rfl :
              ({ seen := name :: g.seen,
                 tests := g.tests ++ [splitParts kPathSeparator name] } : TestGroupState) =
                g2 := by
            simpa using hg2
          exact ⟨rfl, rfl⟩
      · have h3' : ∃ p ∈ splitParts kPathSeparator name, validQueryPart p = false := by
          by_contra hcon
          push_neg at hcon
          apply h3
          rw [List.all_eq_true]
          intro p hp
          cases h : validQueryPart p
          · exact absurd h (hcon p hp)
          · rfl
        rw [hred, if_neg h3]
        refine ⟨?_, ?_⟩
        · simp only [true_iff]
          exact Or.inr (Or.inr h3')
        · intro g2 hg2
          cases hg2
  · have hck : checkName dec g name = none := by
      rw [checkName, if_pos h1]
    have hnone : testGroupTest dec g name = none := by
      rw [testGroupTest, hck]
    refine ⟨?_, ?_⟩
    · rw [hnone]
      simp only [true_iff]
      exact Or.inl h1
    · intro g2 hg2
      rw [hnone] at hg2
      cases hg2

theorem c8_test_name_checks_witness :
    testGroupTest id ⟨[], []⟩ "buffer,map" ≠ none ∧
      (testGroupTest id ⟨["buffer,map"], [["buffer", "map"]]⟩ "buffer,map" = none) ∧
      (testGroupTest id ⟨[], []⟩ "bad name!" = none) := by
  have h1 := c8_test_name_checks id (⟨[], []⟩ : TestGroupState) "buffer,map"
  have h2 := c8_test_name_checks id
    (⟨["buffer,map"], [["buffer", "map"]]⟩ : TestGroupState) "buffer,map"
  have h3 := c8_test_name_checks id (⟨[], []⟩ : TestGroupState) "bad name!"
  refine ⟨fun hres => absurd (h1.1.mp hres) (by decide),
    h2.1.mpr (Or.inr (Or.inl (by decide))),
    h3.1.mpr (Or.inr (Or.inr (by decide)))⟩

/-! ### Content-check utilities (check_contents module) -/

/-- JavaScript `String.prototype.padStart`. -/
def padStart (s : String) (w : Nat) (c : Char) : String :=
  String.mk (List.replicate (w - s.length) c) ++ s

def hexDigitChar (n : Nat) : Char :=
  if n < 10 then Char.ofNat (48 + n) else Char.ofNat (87 + n)

def natToHexAux : Nat → Nat → List Char
  | 0, _ => []
  | _ + 1, 0 => []
  | fuel + 1, n => natToHexAux fuel (n / 16) ++ [hexDigitChar (n % 16)]

/-- JavaScript `n.toString(16)` for a natural number (lowercase hex). -/
def natToHex (n : Nat) : String :=
  if n = 0 then "0" else String.mk (natToHexAux n n)

/-- `intToPaddedHex` (check_contents lines 191-197): absolute value in hex,
zero-padded to the byte length, with a leading minus for negatives. -/
def intToPaddedHex (n : Int) (byteLength : Nat) : String :=
  let s := natToHex n.natAbs
  let s := padStart s (byteLength * 2) (Char.ofNat 48)
  if n < 0 then "-" ++ s else s

/-- A table cell: a number (stringified by `numberToString` during printing,
check_contents line 222) or a string. -/
inductive Cell where
  | num (n : Int)
  | str (s : String)
deriving DecidableEq, Repr

def cellToStr (numberToString : Int → String) : Cell → String
  | .num n => numberToString n
  | .str s => s

/-- One column step of `generatePrettyTable` (check_contents lines 219-245):
advance all rows in lock-step, right-align the column, and once the
accumulated width passes `fillToWidth`, append " ..." to every row that
still had a cell and stop. -/
def tableStep (numberToString : Int → String) (fillToWidth : Nat) (rows : List (List Cell))
    (st : List String × Nat × Bool) (j : Nat) : List String × Nat × Bool :=
  if st.2.2 then st
  else
    let cellsForColumn := rows.map (fun row => (row[j]?).map (cellToStr numberToString))
    let colWidth := (cellsForColumn.foldl (fun a c => max a ((c.getD "").length)) 0) + 1
    let rowStrings := List.zipWith
      (fun rs c =>
        match c with
        | some cs => rs ++ padStart cs colWidth (Char.ofNat 32)
        | none => rs) st.1 cellsForColumn
    let totalTableWidth := st.2.1 + colWidth
    if totalTableWidth ≥ fillToWidth then
      (List.zipWith
        (fun rs c =>
          match c with
          | some _ => rs ++ " ..."
          | none => rs) rowStrings cellsForColumn, totalTableWidth, true)
    else (rowStrings, totalTableWidth, false)

/-- The row strings produced by `generatePrettyTable` (check_contents lines
210-246): the column loop runs until every row iterator is exhausted (at most
the longest row length) or the width cap is hit. -/
def generatePrettyTableRows (numberToString : Int → String) (fillToWidth : Nat)
    (rows : List (List Cell)) : List String :=
  let maxLen := rows.foldl (fun a row => max a row.length) 0
  ((List.range maxLen).foldl (tableStep numberToString fillToWidth rows)
    (rows.map (fun _ => ""), 0, false)).1

/-- `generatePrettyTable` (check_contents lines 210-247). -/
def generatePrettyTable (numberToString : Int → String) (fillToWidth : Nat)
    (rows : List (List Cell)) : String :=
  String.intercalate "\n" (generatePrettyTableRows numberToString fillToWidth rows)

/-- One row of the `predicatePrinter` option of `checkElementsPassPredicate`. -/
structure PredicatePrinterRow where
  leftHeader : String
  getValueForCell : Nat → Int

/-- The indices whose elements fail the predicate (check_contents lines
128-136), in ascending order; the source records the first in
`failedElementsFirstMaybe` and the set in the sparse array `failedElements`
whose `length - 1` is the last failing index.  In-bounds indexing `actual[i]`
is modelled by `actual.getD i 0`. -/
def failedIndices (actual : List Int) (predicate : Nat → Int → Bool) : List Nat :=
  (List.range actual.length).filter (fun i => !(predicate i (actual.getD i 0)))

/-- The pretty-printed diff table of `checkElementsPassPredicate`
(check_contents lines 144-182): one element of context before and after the
failing range, the actual row (hex-prefixed), the failed-value marker row and
the expected rows, rendered with `fillToWidth = 120`. -/
def checkFailTable (byteLength : Nat) (actual : List Int)
    (predicatePrinter : List PredicatePrinterRow) (failed : List Nat) (f l : Nat) : String :=
  let printElementsStart := f - 1
  let printElementsEnd := min actual.length (l + 2)
  let printElementsCount := printElementsEnd - printElementsStart
  let printActual := (actual.drop printElementsStart).take printElementsCount
  let printExpected := predicatePrinter.map (fun pr =>
    [Cell.str pr.leftHeader, Cell.str ""] ++
      (List.range printElementsCount).map
        (fun i => Cell.num (pr.getValueForCell (printElementsStart + i))))
  let printFailedValueMarkers :=
    [Cell.str "failed ->", Cell.str ""] ++
      (List.range printElementsCount).map
        (fun i => Cell.str (if failed.contains (printElementsStart + i) then "xx" else ""))
  let actualRow := [Cell.str "actual ==", Cell.str "0x:"] ++ printActual.map Cell.num
  generatePrettyTable (fun n => intToPaddedHex n byteLength) 120
    ([actualRow, printFailedValueMarkers] ++ printExpected)

/-- `checkElementsPassPredicate` (check_contents lines 119-186), specialized
to integer-typed arrays (`printAsFloat = false`, element type `Int`,
`byteLength` the element byte size); the returned error is represented by its
message. -/
def checkElementsPassPredicate (byteLength : Nat) (actual : List Int)
    (predicate : Nat → Int → Bool) (predicatePrinter : List PredicatePrinterRow) :
    Option String :=
  match (failedIndices actual predicate).head? with
  | none => none
  | some f =>
    some ("Array had unexpected contents at indices " ++ toString f ++ " through " ++
      toString ((failedIndices actual predicate).getLast?.getD f) ++
      ".\n Starting at index " ++ toString (f - 1) ++ ":\n" ++
      checkFailTable byteLength actual predicatePrinter (failedIndices actual predicate) f
        ((failedIndices actual predicate).getLast?.getD f))

/-- `checkElementsEqualGenerated` (check_contents lines 104-113). -/
def checkElementsEqualGenerated (byteLength : Nat) (actual : List Int)
    (generator : Nat → Int) : Option String :=
  checkElementsPassPredicate byteLength actual
    (fun index value => decide (value = generator index))
    [{ leftHeader := "expected ==", getValueForCell := generator }]

/-- `checkElementsEqual` (check_contents lines 29-36): the same-constructor
and same-length assertions are taken as hypotheses by the theorem; the
expected array is used as the generator. -/
def checkElementsEqual (byteLength : Nat) (actual expected : List Int) : Option String :=
  checkElementsEqualGenerated byteLength actual (fun i => expected.getD i 0)

/-- JavaScript-style `endsWith`. -/
def strEndsWith (s suffix : String) : Bool :=
  suffix.data.isSuffixOf s.data

lemma filter_range_head (n : Nat) (p : Nat → Bool) (m : Nat)
    (h : ((List.range n).filter p).head? = some m) :
    m < n ∧ p m = true ∧ ∀ k, k < m → p k = false := by
  induction n with
  | zero => simp [List.range_zero] at h
  | succ n ih =>
    rw [List.range_succ, List.filter_append] at h
    rcases hf : (List.range n).filter p with _ | ⟨a, as⟩
    · rw [hf, List.nil_append] at h
      by_cases hp : p n = true
      · rw [List.filter_cons, if_pos hp] at h
        simp only [List.filter_nil, List.head?_cons, Option.some.injEq] at h
        obtain rfl : n = m := h
        refine ⟨Nat.lt_succ_self _, hp, ?_⟩
        intro k hk
        have hall := List.filter_eq_nil_iff.mp hf
        have hnk := hall k (List.mem_range.mpr hk)
        cases hq : p k
        · rfl
        · exact absurd hq hnk
      · rw [List.filter_cons, if_neg hp] at h
        simp at h
    · rw [hf, List.cons_append, List.head?_cons] at h
      obtain rfl : a = m := by simpa using h
      obtain ⟨h1, h2, h3⟩ := ih (by rw [hf, List.head?_cons])
      exact ⟨Nat.lt_succ_of_lt h1, h2, h3⟩

lemma filter_range_getLast (n : Nat) (p : Nat → Bool) (m : Nat)
    (h : ((List.range n).filter p).getLast? = some m) :
    m < n ∧ p m = true ∧ ∀ k, m < k → k < n → p k = false := by
  induction n with
  | zero => simp [List.range_zero] at h
  | succ n ih =>
    rw [List.range_succ, List.filter_append] at h
    by_cases hp : p n = true
    · rw [List.filter_cons, if_pos hp, List.filter_nil, List.getLast?_concat] at h
      obtain rfl : n = m := by simpa using h
      refine ⟨Nat.lt_succ_self _, hp, ?_⟩
      intro k h1 h2
      exact absurd h2 (by omega)
    · rw [List.filter_cons, if_neg hp, List.filter_nil, List.append_nil] at h
      obtain ⟨h1, h2, h3⟩ := ih h
      refine ⟨Nat.lt_succ_of_lt h1, h2, ?_⟩
      intro k hk1 hk2
      rcases Nat.lt_succ_iff_lt_or_eq.mp hk2 with hk | rfl
      · exact h3 k hk1 hk
      · cases hq : p k
        · rfl
        · exact absurd hq hp

lemma list_eq_of_getD (a b : List Int) (hlen : a.length = b.length)
    (h : ∀ i, i < a.length → a.getD i 0 = b.getD i 0) : a = b := by
  apply List.ext_getElem hlen
  intro i h1 h2
  have hi := h i h1
  rwa [List.getD_eq_getElem?_getD, List.getD_eq_getElem?_getD,
    List.getElem?_eq_getElem h1, List.getElem?_eq_getElem h2, Option.getD_some,
    Option.getD_some] at hi

set_option maxRecDepth 40000

/-- C9: `checkElementsEqual` on same-type same-length arrays returns no error
exactly when all elements agree; otherwise its error message identifies the
range of failing indices, starting at the first differing index and ending at
the last, and starts the printed window one element of context earlier; the
rendered table is capped to a total width of 120 with a trailing " ..." when
truncated (shown for a wide table, absent for a narrow one). -/
theorem c9_check_elements (byteLength : Nat) (actual expected : List Int)
    (hlen : actual.length = expected.length) :
    (checkElementsEqual byteLength actual expected = none ↔ actual = expected) ∧
      (actual ≠ expected →
        ∃ f l t, f ≤ l ∧ l < actual.length ∧
          actual.getD f 0 ≠ expected.getD f 0 ∧
          (∀ k, k < f → actual.getD k 0 = expected.getD k 0) ∧
          actual.getD l 0 ≠ expected.getD l 0 ∧
          (∀ k, l < k → k < actual.length → actual.getD k 0 = expected.getD k 0) ∧
          checkElementsEqual byteLength actual expected =
            some ("Array had unexpected contents at indices " ++ toString f ++
              " through " ++ toString l ++ ".\n Starting at index " ++
              toString (f - 1) ++ ":\n" ++ t)) ∧
      (∀ r ∈ generatePrettyTableRows (fun n => intToPaddedHex n 1) 120
          [List.replicate 45 (Cell.str "ab")], strEndsWith r " ..." = true) ∧
      (∀ r ∈ generatePrettyTableRows (fun n => intToPaddedHex n 1) 120
          [[Cell.str "ab"]], strEndsWith r " ..." = false) := by
  have hunfold : checkElementsEqual byteLength actual expected =
      checkElementsPassPredicate byteLength actual
        (fun index value => decide (value = expected.getD index 0))
        [{ leftHeader := "expected ==", getValueForCell := fun i => expected.getD i 0 }] := rfl
  have hiff : checkElementsEqual byteLength actual expected = none ↔ actual = expected := by
    constructor
    · intro h
      rcases hh : (failedIndices actual
          (fun index value => decide (value = expected.getD index 0))).head? with _ | f
      · have hnil := List.head?_eq_none_iff.mp hh
        apply list_eq_of_getD actual expected hlen
        intro i hi
        by_contra hne2
        have hmem : i ∈ failedIndices actual
            (fun index value => decide (value = expected.getD index 0)) := by
          rw [failedIndices]
          refine List.mem_filter.mpr ⟨List.mem_range.mpr hi, ?_⟩
          simp only [Bool.not_eq_true', decide_eq_false_iff_not]
          exact hne2
        rw [hnil] at hmem
        exact absurd hmem (List.not_mem_nil i)
      · rw [hunfold, checkElementsPassPredicate, hh] at h
        simp at h
    · rintro rfl
      rw [hunfold, checkElementsPassPredicate]
      have hnil : failedIndices actual
          (fun index value => decide (value = actual.getD index 0)) = [] := by
        rw [failedIndices, List.filter_eq_nil_iff]
        intro a _
        simp
      rw [hnil]
      rfl
  refine ⟨hiff, ?_, by decide, by decide⟩
  intro hne
  rcases hh : (failedIndices actual
      (fun index value => decide (value = expected.getD index 0))).head? with _ | f
  · have hnone : checkElementsEqual byteLength actual expected = none := by
      rw [hunfold, checkElementsPassPredicate, hh]
    exact absurd (hiff.mp hnone) hne
  · have hnonnil : failedIndices actual
        (fun index value => decide (value = expected.getD index 0)) ≠ [] := by
      intro hcon
      rw [hcon] at hh
      cases hh
    rcases hgl : (failedIndices actual
        (fun index value => decide (value = expected.getD index 0))).getLast? with _ | l
    · exact absurd (List.getLast?_eq_none_iff.mp hgl) hnonnil
    · have hh' : ((List.range actual.length).filter
          (fun i => !(decide (actual.getD i 0 = expected.getD i 0)))).head? = some f := hh
      have hgl' : ((List.range actual.length).filter
          (fun i => !(decide (actual.getD i 0 = expected.getD i 0)))).getLast? = some l := hgl
      obtain ⟨hfn, hpf, hmin⟩ := filter_range_head actual.length
        (fun i => !(decide (actual.getD i 0 = expected.getD i 0))) f hh'
      obtain ⟨hln, hpl, hmax⟩ := filter_range_getLast actual.length
        (fun i => !(decide (actual.getD i 0 = expected.getD i 0))) l hgl'
      have hfle : f ≤ l := by
        by_contra hcon
        push_neg at hcon
        have hlf := hmin l hcon
        rw [hpl] at hlf
        cases hlf
      have hcheck : checkElementsEqual byteLength actual expected =
          some ("Array had unexpected contents at indices " ++ toString f ++ " through " ++
            toString l ++ ".\n Starting at index " ++ toString (f - 1) ++ ":\n" ++
            checkFailTable byteLength actual
              [{ leftHeader := "expected ==", getValueForCell := fun i => expected.getD i 0 }]
              (failedIndices actual
                (fun index value => decide (value = expected.getD index 0))) f l) := by
        rw [hunfold, checkElementsPassPredicate, hh, hgl]
        rfl
      refine ⟨f, l, _, hfle, hln, ?_, ?_, ?_, ?_, hcheck⟩
      · intro hcon
        rw [hcon] at hpf
        simp at hpf
      · intro k hk
        have := hmin k hk
        simpa using this
      · intro hcon
        rw [hcon] at hpl
        simp at hpl
      · intro k hk1 hk2
        have := hmax k hk1 hk2
        simpa using this

theorem c9_check_elements_witness :
    checkElementsEqual 1 [1, 2, 3] [1, 2, 3] = none ∧
      checkElementsEqual 1 [1, 2, 3] [1, 2, 4] ≠ none ∧
      (∃ t, checkElementsEqual 1 [1, 2, 3] [1, 2, 4] =
        some ("Array had unexpected contents at indices 2 through 2.\n Starting at index 1:\n"
          ++ t)) := by
  have h1 := c9_check_elements 1 [1, 2, 3] [1, 2, 3] rfl
  have h2 := c9_check_elements 1 [1, 2, 3] [1, 2, 4] rfl
  obtain ⟨f, l, t, hfl, hl, hfd, hmin, hld, hmax, hmsg⟩ := h2.2.1 (by decide)
  have hl3 : l < 3 := hl
  have hf3 : f < 3 := lt_of_le_of_lt hfl hl3
  have hf2 : f = 2 := by
    interval_cases f
    · exact absurd hfd (by decide)
    · exact absurd hfd (by decide)
    · rfl
  have hl2 : l = 2 := by
    interval_cases l
    · exact absurd hld (by decide)
    · exact absurd hld (by decide)
    · rfl
  subst hf2
  subst hl2
  refine ⟨h1.1.mpr rfl, ?_, ⟨t, hmsg⟩⟩
  rw [hmsg]
  simp

end CTS